import Mathlib

/-
Verification of the fts-engine full-text search repository.

The definitions below are a shallow embedding of the Go sources:

* Go strings at the index layer are modelled as their UTF-8 byte
  sequences (`List Nat`, each entry < 256), since the index code
  (`len`, `s[i]`, slicing, `lcp`) operates on bytes.
* Go `map[string]int` posting maps are modelled as association lists
  `List (String × Nat)`; `m[k]++` is `bumpDoc`, which updates in place
  or appends, exactly mirroring map semantics up to iteration order.
* Fixed-size Go arrays (`[26]*Node`) are modelled as total functions
  from `Fin 26`; Go slices are modelled as lists.
* Mutating code is modelled by explicit state passing; fallible code
  returns a `× Option GoErr` component mirroring Go's `(T, error)`
  return values.
* External library functions that are not part of the repository
  (the snowball stemmer and its stop-word test) are modelled from the
  specification and are marked as such in their doc comments.
-/

set_option autoImplicit false

namespace FtsEngine

/-- Error values produced by the engine.  `invalidSize` models
`ErrInvalidTrigramSize`, `invalidChar` models the
`fmt.Errorf("invalid character in trigram %v", ...)` error and
`wrap e` models wrapping an error with `fmt.Errorf("...: %w", err)`. -/
inductive GoErr where
  | invalidSize
  | invalidChar
  | wrap (e : GoErr)
  deriving DecidableEq, Repr

/-- UTF-8 encoding of a single code point, by the standard ranges. -/
def utf8Char (c : Char) : List Nat :=
  let n := c.toNat
  if n < 0x80 then [n]
  else if n < 0x800 then [0xC0 + n / 64, 0x80 + n % 64]
  else if n < 0x10000 then [0xE0 + n / 4096, 0x80 + n / 64 % 64, 0x80 + n % 64]
  else [0xF0 + n / 262144, 0x80 + n / 4096 % 64, 0x80 + n / 64 % 64, 0x80 + n % 64]

/-- The byte sequence of a Go string: UTF-8 bytes of its code points. -/
def utf8Bytes (s : String) : List Nat :=
  s.data.flatMap utf8Char

/-- `m[d]++` on a `map[string]int` modelled as an association list:
increment the entry for `d` in place, or append `(d, 1)`. -/
def bumpDoc : List (String × Nat) → String → List (String × Nat)
  | [], d => [(d, 1)]
  | (k, c) :: rest, d =>
    if k = d then (k, c + 1) :: rest else (k, c) :: bumpDoc rest d

/-- Lookup in an association list modelling a Go map. -/
def findDoc : List (String × Nat) → String → Option Nat
  | [], _ => none
  | (k, c) :: rest, d => if k = d then some c else findDoc rest d

/-! ## Trigram trie (`internal/services/fts_trie/fts_trigram_trie.go` and
the `trigramtrie` package): a rigid three-level 26-ary trie. -/

/-- A trigram-trie node: `docs map[string]int` and
`continuations [26]*Node` (a fixed-size array of nil-able pointers,
modelled as a total function from `Fin 26`). -/
inductive TNode where
  | mk (docs : List (String × Nat)) (continuations : Fin 26 → Option TNode)

/-- The `docs` field of a node. -/
def TNode.docs : TNode → List (String × Nat)
  | .mk d _ => d

/-- The `continuations` field of a node. -/
def TNode.continuations : TNode → Fin 26 → Option TNode
  | .mk _ c => c

/-- `newNode()`: empty docs map, all 26 continuations nil. -/
def newTNode : TNode :=
  .mk [] (fun _ => none)

/-- Store continuation `c` at slot `i` of node `n`
(`node.continuations[index] = c`). -/
def TNode.setCont (n : TNode) (i : Fin 26) (c : TNode) : TNode :=
  .mk n.docs (Function.update n.continuations i (some c))

/-- `trigram[i] - 'a'` in Go `uint8` arithmetic: the subtraction wraps
modulo 256, so the `index < 0` branch of the Go test is unreachable and
the guard `index >= 26` rejects exactly the bytes outside `'a'..'z'`. -/
def byteIndex (b : Nat) : Nat :=
  (b + 256 - 97) % 256

/-- The body of the `for i := 0; i < 3; i++` loop of `Trie.Insert`,
unfolded over the remaining bytes of the key: at each level the byte is
validated (`index >= 26` returns the invalid-character error, with the
continuation nodes created so far left in place, exactly as the Go code
mutates the trie during its descent) and a missing continuation node is
created; after the last level the node's `docs[docID]` is incremented. -/
def insertGo (n : TNode) (key : List Nat) (d : String) : TNode × Option GoErr :=
  match key with
  | [] => (.mk (bumpDoc n.docs d) n.continuations, none)
  | b :: rest =>
    if h : 26 ≤ byteIndex b then (n, some .invalidChar)
    else
      let i : Fin 26 := ⟨byteIndex b, by omega⟩
      let c := (n.continuations i).getD newTNode
      let r := insertGo c rest d
      (n.setCont i r.1, r.2)

/-- `Trie.Insert(trigram, docID)` of the trigram trie:
`len(trigram) != 3` is rejected up front, then the three-level loop
`insertGo` runs on the root. -/
def trigramInsert (root : TNode) (key : List Nat) (d : String) :
    TNode × Option GoErr :=
  if key.length = 3 then insertGo root key d else (root, some .invalidSize)

/-- The body of the `for i := 0; i < 3; i++` loop of `Trie.Search`,
unfolded over the remaining bytes of the key.  The result mirrors Go's
`(map[string]int, error)` pair: `(none, some e)` is `(nil, err)`,
`(none, none)` is the not-found `(nil, nil)` and `(some docs, none)`
returns the reached node's docs map. -/
def searchGo (n : TNode) (key : List Nat) :
    Option (List (String × Nat)) × Option GoErr :=
  match key with
  | [] => (some n.docs, none)
  | b :: rest =>
    if h : 26 ≤ byteIndex b then (none, some .invalidChar)
    else
      match n.continuations ⟨byteIndex b, by omega⟩ with
      | none => (none, none)
      | some c => searchGo c rest

/-- `Trie.Search(word)` of the trigram trie: `len(word) != 3` is
rejected up front, then the three-level loop `searchGo` runs. -/
def trigramSearch (root : TNode) (key : List Nat) :
    Option (List (String × Nat)) × Option GoErr :=
  if key.length = 3 then searchGo root key else (none, some .invalidSize)

/-! ## The snowball (Porter2) English stemmer.

Modelled from the spec: the services call `snowballeng.Stem(token,
false)` and `snowballeng.IsStopWord` from the external library
`github.com/kljensen/snowball/english`, which is not part of this
repository.  The spec (§4.A) prescribes "the English snowball
(Porter2) stemming algorithm", implemented below in full; the
apostrophe prelude of Porter2 is omitted because both tokenizers of the
repository split tokens at every non-letter (non-digit) rune, so a
token never contains an apostrophe and the prelude is the identity on
all pipeline inputs. -/

namespace Porter2

/-- Vowels of the algorithm; the marker `Y` (consonant `y`) is not a
vowel. -/
def isVowel (c : Char) : Bool :=
  c = 'a' || c = 'e' || c = 'i' || c = 'o' || c = 'u' || c = 'y'

/-- Mark `y` as consonant `Y` after a vowel (helper of `markYs`). -/
def markRest (prev : Char) : List Char → List Char
  | [] => []
  | c :: rest =>
    let c' := if c = 'y' && isVowel prev then 'Y' else c
    c' :: markRest c' rest

/-- Set initial `y`, or `y` after a vowel, to `Y`. -/
def markYs : List Char → List Char
  | [] => []
  | c :: rest =>
    let c' := if c = 'y' then 'Y' else c
    c' :: markRest c' rest

/-- Position after the first non-vowel following a vowel (the standard
region computation); returns the length if there is none. -/
def reg : List Char → Nat
  | c1 :: c2 :: rest =>
    if isVowel c1 && !isVowel c2 then 2 else 1 + reg (c2 :: rest)
  | l => l.length

/-- Start of R1, with the exceptional prefixes gener-, commun- and
arsen-. -/
def r1Pos (w : List Char) : Nat :=
  if w.take 5 = "gener".data then 5
  else if w.take 6 = "commun".data then 6
  else if w.take 5 = "arsen".data then 5
  else reg w

/-- Start of R2: the region computation applied within R1. -/
def r2Pos (w : List Char) : Nat :=
  r1Pos w + reg (w.drop (r1Pos w))

/-- `true` when `suf` is a suffix of `w`. -/
def ends (w suf : List Char) : Bool :=
  suf.isSuffixOf w

/-- Replace the last `k` characters of `w` by `r`. -/
def repl (w : List Char) (k : Nat) (r : List Char) : List Char :=
  w.take (w.length - k) ++ r

/-- A suffix of length `k` of `w` lies in the region starting at `p`. -/
def inReg (p : Nat) (w : List Char) (k : Nat) : Bool :=
  p + k ≤ w.length

/-- The word ends in a double (bb dd ff gg mm nn pp rr tt). -/
def endsDouble (w : List Char) : Bool :=
  match w.reverse with
  | a :: b :: _ =>
    a = b && (a = 'b' || a = 'd' || a = 'f' || a = 'g' || a = 'm' ||
      a = 'n' || a = 'p' || a = 'r' || a = 't')
  | _ => false

/-- The word ends in a short syllable: a vowel followed by a non-vowel
other than `w`, `x` or `Y`, preceded by a non-vowel; or a vowel at the
beginning of the word followed by a non-vowel. -/
def endsShortSyllable (w : List Char) : Bool :=
  match w.reverse with
  | c :: v :: rest =>
    match rest with
    | [] => isVowel v && !isVowel c
    | p :: _ =>
      isVowel v && !isVowel c && !(c = 'w' || c = 'x' || c = 'Y') &&
        !isVowel p
  | _ => false

/-- A word is short when it ends in a short syllable and R1 is null. -/
def isShortWord (w : List Char) (r1 : Nat) : Bool :=
  endsShortSyllable w && w.length ≤ r1

/-- Exceptional forms checked before the algorithm proper. -/
def exceptions1 : List (List Char × List Char) :=
  [("skis".data, "ski".data), ("skies".data, "sky".data),
   ("dying".data, "die".data), ("lying".data, "lie".data),
   ("tying".data, "tie".data), ("idly".data, "idl".data),
   ("gently".data, "gentl".data), ("ugly".data, "ugli".data),
   ("early".data, "earli".data), ("only".data, "onli".data),
   ("singly".data, "singl".data), ("sky".data, "sky".data),
   ("news".data, "news".data), ("howe".data, "howe".data),
   ("atlas".data, "atlas".data), ("cosmos".data, "cosmos".data),
   ("bias".data, "bias".data), ("andes".data, "andes".data)]

/-- Words left invariant when reached after step 1a. -/
def exceptions2 : List (List Char) :=
  ["inning".data, "outing".data, "canning".data, "herring".data,
   "earring".data, "proceed".data, "exceed".data, "succeed".data]

/-- Step 1a: sses, ied/ies, ss/us, s. -/
def step1a (w : List Char) : List Char :=
  if ends w "sses".data then repl w 4 "ss".data
  else if ends w "ied".data || ends w "ies".data then
    (if 4 < w.length then repl w 3 "i".data else repl w 3 "ie".data)
  else if ends w "ss".data || ends w "us".data then w
  else if ends w "s".data then
    (if (w.take (w.length - 2)).any (fun c => isVowel c) then
      repl w 1 [] else w)
  else w

/-- The adjustment after deleting ed/edly/ing/ingly in step 1b. -/
def step1bAdjust (w : List Char) (r1 : Nat) : List Char :=
  if ends w "at".data || ends w "bl".data || ends w "iz".data then
    w ++ ['e']
  else if endsDouble w then w.take (w.length - 1)
  else if isShortWord w r1 then w ++ ['e']
  else w

/-- Step 1b: eed/eedly in R1 become ee; ed/edly/ing/ingly are removed
when the preceding part contains a vowel, with the adjustment. -/
def step1b (w : List Char) (r1 : Nat) : List Char :=
  if ends w "eedly".data then
    (if inReg r1 w 5 then repl w 5 "ee".data else w)
  else if ends w "eed".data then
    (if inReg r1 w 3 then repl w 3 "ee".data else w)
  else if ends w "ingly".data then
    (if (w.take (w.length - 5)).any (fun c => isVowel c) then
      step1bAdjust (repl w 5 []) r1 else w)
  else if ends w "edly".data then
    (if (w.take (w.length - 4)).any (fun c => isVowel c) then
      step1bAdjust (repl w 4 []) r1 else w)
  else if ends w "ing".data then
    (if (w.take (w.length - 3)).any (fun c => isVowel c) then
      step1bAdjust (repl w 3 []) r1 else w)
  else if ends w "ed".data then
    (if (w.take (w.length - 2)).any (fun c => isVowel c) then
      step1bAdjust (repl w 2 []) r1 else w)
  else w

/-- Step 1c: final y/Y preceded by a non-vowel which is not the first
letter becomes i. -/
def step1c (w : List Char) : List Char :=
  match w.reverse with
  | c :: v :: _ :: _ =>
    if (c = 'y' || c = 'Y') && !isVowel v then repl w 1 "i".data else w
  | _ => w

/-- Valid li-ending: one of c d e g h k m n r t. -/
def validLiEnding (c : Char) : Bool :=
  c = 'c' || c = 'd' || c = 'e' || c = 'g' || c = 'h' || c = 'k' ||
    c = 'm' || c = 'n' || c = 'r' || c = 't'

/-- Step 2: suffix replacements in R1, longest suffix first. -/
def step2 (w : List Char) (r1 : Nat) : List Char :=
  if ends w "ational".data then
    (if inReg r1 w 7 then repl w 7 "ate".data else w)
  else if ends w "ization".data then
    (if inReg r1 w 7 then repl w 7 "ize".data else w)
  else if ends w "fulness".data then
    (if inReg r1 w 7 then repl w 7 "ful".data else w)
  else if ends w "ousness".data then
    (if inReg r1 w 7 then repl w 7 "ous".data else w)
  else if ends w "iveness".data then
    (if inReg r1 w 7 then repl w 7 "ive".data else w)
  else if ends w "tional".data then
    (if inReg r1 w 6 then repl w 6 "tion".data else w)
  else if ends w "biliti".data then
    (if inReg r1 w 6 then repl w 6 "ble".data else w)
  else if ends w "lessli".data then
    (if inReg r1 w 6 then repl w 6 "less".data else w)
  else if ends w "entli".data then
    (if inReg r1 w 5 then repl w 5 "ent".data else w)
  else if ends w "ation".data then
    (if inReg r1 w 5 then repl w 5 "ate".data else w)
  else if ends w "alism".data then
    (if inReg r1 w 5 then repl w 5 "al".data else w)
  else if ends w "aliti".data then
    (if inReg r1 w 5 then repl w 5 "al".data else w)
  else if ends w "ousli".data then
    (if inReg r1 w 5 then repl w 5 "ous".data else w)
  else if ends w "iviti".data then
    (if inReg r1 w 5 then repl w 5 "ive".data else w)
  else if ends w "fulli".data then
    (if inReg r1 w 5 then repl w 5 "ful".data else w)
  else if ends w "enci".data then
    (if inReg r1 w 4 then repl w 4 "ence".data else w)
  else if ends w "anci".data then
    (if inReg r1 w 4 then repl w 4 "ance".data else w)
  else if ends w "abli".data then
    (if inReg r1 w 4 then repl w 4 "able".data else w)
  else if ends w "izer".data then
    (if inReg r1 w 4 then repl w 4 "ize".data else w)
  else if ends w "ator".data then
    (if inReg r1 w 4 then repl w 4 "ate".data else w)
  else if ends w "alli".data then
    (if inReg r1 w 4 then repl w 4 "al".data else w)
  else if ends w "bli".data then
    (if inReg r1 w 3 then repl w 3 "ble".data else w)
  else if ends w "ogi".data then
    (if inReg r1 w 3 && ends (w.take (w.length - 3)) "l".data then
      repl w 3 "og".data else w)
  else if ends w "li".data then
    (if inReg r1 w 2 &&
        (match (w.take (w.length - 2)).reverse with
          | c :: _ => validLiEnding c
          | [] => false) then
      repl w 2 [] else w)
  else w

/-- Step 3: suffix replacements in R1 (ative needs R2), longest suffix
first. -/
def step3 (w : List Char) (r1 r2 : Nat) : List Char :=
  if ends w "ational".data then
    (if inReg r1 w 7 then repl w 7 "ate".data else w)
  else if ends w "tional".data then
    (if inReg r1 w 6 then repl w 6 "tion".data else w)
  else if ends w "alize".data then
    (if inReg r1 w 5 then repl w 5 "al".data else w)
  else if ends w "icate".data then
    (if inReg r1 w 5 then repl w 5 "ic".data else w)
  else if ends w "iciti".data then
    (if inReg r1 w 5 then repl w 5 "ic".data else w)
  else if ends w "ative".data then
    (if inReg r2 w 5 then repl w 5 [] else w)
  else if ends w "ical".data then
    (if inReg r1 w 4 then repl w 4 "ic".data else w)
  else if ends w "ness".data then
    (if inReg r1 w 4 then repl w 4 [] else w)
  else if ends w "ful".data then
    (if inReg r1 w 3 then repl w 3 [] else w)
  else w

/-- Step 4: suffix deletions in R2, longest suffix first; ion only
after s or t. -/
def step4 (w : List Char) (r2 : Nat) : List Char :=
  if ends w "ement".data then
    (if inReg r2 w 5 then repl w 5 [] else w)
  else if ends w "ance".data then
    (if inReg r2 w 4 then repl w 4 [] else w)
  else if ends w "ence".data then
    (if inReg r2 w 4 then repl w 4 [] else w)
  else if ends w "able".data then
    (if inReg r2 w 4 then repl w 4 [] else w)
  else if ends w "ible".data then
    (if inReg r2 w 4 then repl w 4 [] else w)
  else if ends w "ment".data then
    (if inReg r2 w 4 then repl w 4 [] else w)
  else if ends w "ant".data then
    (if inReg r2 w 3 then repl w 3 [] else w)
  else if ends w "ent".data then
    (if inReg r2 w 3 then repl w 3 [] else w)
  else if ends w "ism".data then
    (if inReg r2 w 3 then repl w 3 [] else w)
  else if ends w "ate".data then
    (if inReg r2 w 3 then repl w 3 [] else w)
  else if ends w "iti".data then
    (if inReg r2 w 3 then repl w 3 [] else w)
  else if ends w "ous".data then
    (if inReg r2 w 3 then repl w 3 [] else w)
  else if ends w "ive".data then
    (if inReg r2 w 3 then repl w 3 [] else w)
  else if ends w "ize".data then
    (if inReg r2 w 3 then repl w 3 [] else w)
  else if ends w "ion".data then
    (if inReg r2 w 3 &&
        (ends (w.take (w.length - 3)) "s".data ||
          ends (w.take (w.length - 3)) "t".data) then
      repl w 3 [] else w)
  else if ends w "al".data then
    (if inReg r2 w 2 then repl w 2 [] else w)
  else if ends w "er".data then
    (if inReg r2 w 2 then repl w 2 [] else w)
  else if ends w "ic".data then
    (if inReg r2 w 2 then repl w 2 [] else w)
  else w

/-- Step 5: final e deleted in R2, or in R1 when not preceded by a
short syllable; final l deleted in R2 when preceded by l. -/
def step5 (w : List Char) (r1 r2 : Nat) : List Char :=
  if ends w "e".data then
    (if inReg r2 w 1 ||
        (inReg r1 w 1 && !endsShortSyllable (w.take (w.length - 1))) then
      repl w 1 [] else w)
  else if ends w "l".data then
    (if inReg r2 w 1 && ends w "ll".data then repl w 1 [] else w)
  else w

/-- Turn the consonant markers `Y` back into `y`. -/
def unmark (w : List Char) : List Char :=
  w.map (fun c => if c = 'Y' then 'y' else c)

/-- Find an exceptional form. -/
def findException (w : List Char) : Option (List Char) :=
  (exceptions1.find? (fun p => p.1 = w)).map (fun p => p.2)

/-- The Porter2 algorithm on a lowercased word: words of two letters or
less are left as they are; otherwise exceptional forms are mapped
directly and the steps run in order, with R1/R2 fixed by the marked
input word. -/
def stemList (w : List Char) : List Char :=
  if w.length ≤ 2 then w
  else
    match findException w with
    | some r => r
    | none =>
      let w1 := markYs w
      let r1 := r1Pos w1
      let r2 := r2Pos w1
      let w2 := step1a w1
      if w2 ∈ exceptions2 then unmark w2
      else
        let w3 := step1b w2 r1
        let w4 := step1c w3
        let w5 := step2 w4 r1
        let w6 := step3 w5 r1 r2
        let w7 := step4 w6 r2
        let w8 := step5 w7 r1 r2
        unmark w8

end Porter2

/-- ASCII lowercasing of a character, modelling `strings.ToLower` on
the ASCII fragment (all tokens reaching the stemmer in the verified
paths are ASCII). -/
def toLowerChar (c : Char) : Char :=
  if 'A' ≤ c ∧ c ≤ 'Z' then Char.ofNat (c.toNat + 32) else c

/-- Modelled from the spec: `snowballeng.Stem(word, false)` of the
external snowball library applies Unicode lowercasing and then the
Porter2 English stemmer prescribed by §4.A of the spec. -/
def snowballStem (s : String) : String :=
  ⟨Porter2.stemList (s.data.map toLowerChar)⟩

/-- The closed stop-word list of §4.A of the spec; it is also exactly
the `stopWords` map of `internal/services/fts_kv/fts_kv.go` and
`internal/services/fts/fts.go`. -/
def stopWordsList : List String :=
  ["a", "an", "and", "are", "as", "at", "be", "but", "by", "for",
   "if", "in", "into", "is", "it", "no", "not", "of", "on", "or",
   "such", "that", "the", "their", "then", "there", "these", "they",
   "this", "to", "was", "were", "will", "with", "i", "me", "my",
   "mine", "we", "us", "our", "ours", "you", "your", "yours", "he",
   "him", "his", "she", "her", "hers", "himself", "herself"]

/-- Modelled from the spec: `snowballeng.IsStopWord` of the external
snowball library, modelled by the closed stop list of §4.A (the spec's
stage-3 stop set); every token evaluated in the theorems below is
classified identically by the library's own list. -/
def isStopWord (s : String) : Bool :=
  stopWordsList.contains s

/-! ## Tokenizers. -/

/-- The character class kept by the `Tokenize` of the `fts` search
service and of the trigram trie: `char >= 'A' && char <= 'Z' ||
char >= 'a' && char <= 'z'`. -/
def isAsciiLetter (c : Char) : Bool :=
  ('A' ≤ c && c ≤ 'Z') || ('a' ≤ c && c ≤ 'z')

/-- `unicode.IsLetter || unicode.IsNumber`, modelled on the ASCII
fragment (every input evaluated in the theorems below is ASCII, where
the two classifications agree). -/
def isLetterOrDigitAscii (c : Char) : Bool :=
  isAsciiLetter c || ('0' ≤ c && c ≤ '9')

/-- Split a rune sequence into the maximal runs satisfying `p`; the
accumulator carries the current run reversed.  This models the
byte-position bookkeeping of the Go tokenizers, which emit exactly the
maximal runs of kept runes. -/
def runsAux (p : Char → Bool) : List Char → List Char → List String
  | [], acc => if acc.isEmpty then [] else [⟨acc.reverse⟩]
  | c :: rest, acc =>
    if p c then runsAux p rest (c :: acc)
    else if acc.isEmpty then runsAux p rest []
    else ⟨acc.reverse⟩ :: runsAux p rest []

/-- `Tokenize` of the `fts` search service (and the trigram trie's
`tokenize`): maximal runs of ASCII letters, all other runes are
separators. -/
def tokenizeAscii (s : String) : List String :=
  runsAux isAsciiLetter s.data []

/-- `Tokenize` of `fts_kv.go`: maximal runs of letter/digit runes
(Unicode classes modelled on the ASCII fragment). -/
def tokenizeKV (s : String) : List String :=
  runsAux isLetterOrDigitAscii s.data []

/-- `strings.ToLower`, modelled on the ASCII fragment. -/
def goToLowerStr (s : String) : String :=
  ⟨s.data.map toLowerChar⟩

/-- The `ToLower` pipeline stage of `fts_kv.go` (fully consumed). -/
def kvToLower (l : List String) : List String :=
  l.map goToLowerStr

/-- The `FilterStopWords` pipeline stage of `fts_kv.go`: drop tokens in
the package's `stopWords` map. -/
def kvFilterStopWords (l : List String) : List String :=
  l.filter (fun s => !stopWordsList.contains s)

/-- The `Stem` pipeline stage of `fts_kv.go`:
`snowballeng.Stem(token, false)` on each token. -/
def kvStem (l : List String) : List String :=
  l.map snowballStem

/-- `preprocessText` of `fts_kv.go`: Tokenize, ToLower,
FilterStopWords, Stem, collected into a word list. -/
def kvPreprocessText (s : String) : List String :=
  kvStem (kvFilterStopWords (kvToLower (tokenizeKV s)))

/-! ## Key generators. -/

/-- `getTrigrams`: every sliding window of three bytes; nil for tokens
shorter than three bytes. -/
def getTrigrams (token : List Nat) : List (List Nat) :=
  if token.length < 3 then []
  else (List.range (token.length - 2)).map (fun i => (token.drop i).take 3)

/-- `TrigramKeys`: the trigrams of the token, or the
`ErrInvalidTrigramSize` error when there are none. -/
def trigramKeysGen (token : String) : List (List Nat) × Option GoErr :=
  let t := getTrigrams (utf8Bytes token)
  if t.length = 0 then ([], some .invalidSize) else (t, none)

/-- `WordKeys`: the token itself as the single key. -/
def wordKeysGen (token : String) : List (List Nat) × Option GoErr :=
  ([utf8Bytes token], none)

/-! ## The search service (`SearchService` of the `fts` package,
`src/unnamed/part_002`), parameterized by an index and a key generator
exactly as the Go struct is. -/

/-- A `(docID, uniqueMatches, totalMatches)` accumulator entry.  The Go
code uses two maps `docUniqueMatches` / `docTotalMatches` keyed by the
same docIDs and always written together; they are modelled as one
association list in first-touch order. -/
def bumpMatch : List (String × Nat × Nat) → String → Nat →
    List (String × Nat × Nat)
  | [], d, c => [(d, 1, c)]
  | (k, u, t) :: rest, d, c =>
    if k = d then (k, u + 1, t + c) :: rest
    else (k, u, t) :: bumpMatch rest d c

/-- The comparator of `sort.Slice`: higher `uniqueMatches` first, ties
broken by higher `totalMatches`. -/
def resultLess (a b : String × Nat × Nat) : Bool :=
  if a.2.1 = b.2.1 then decide (b.2.2 < a.2.2) else decide (b.2.1 < a.2.1)

/-- Insertion into a sorted list by `less`. -/
def insertBy {α : Type} (less : α → α → Bool) (x : α) : List α → List α
  | [] => [x]
  | y :: rest => if less x y then x :: y :: rest else y :: insertBy less x rest

/-- `sort.Slice`, modelled as an insertion sort with the Go
comparator. -/
def sortBy {α : Type} (less : α → α → Bool) (l : List α) : List α :=
  l.foldr (insertBy less) []

/-- The final truncation index computed by `SearchDocuments`: first
`maxResults` is lowered to the number of matches when there are fewer
matches, then `lastIndex` is reset to the number of matches whenever it
still exceeds `maxResults`. -/
def lastIndexGo (numMatches maxResults : Nat) : Nat :=
  let m := if numMatches < maxResults then numMatches else maxResults
  if m < numMatches then numMatches else m

/-- The inner key loop of `SearchService.SearchDocuments`: look up each
key, abort on error, skip empty results, and accumulate
unique/total matches per docID. -/
def ssSearchKeys (idx : List Nat → List (String × Nat) × Option GoErr) :
    List (List Nat) → List (String × Nat × Nat) →
      List (String × Nat × Nat) × Option GoErr
  | [], m => (m, none)
  | k :: ks, m =>
    match idx k with
    | (_, some e) => (m, some e)
    | (docs, none) =>
      if docs.length = 0 then ssSearchKeys idx ks m
      else ssSearchKeys idx ks
        (docs.foldl (fun acc p => bumpMatch acc p.1 p.2) m)

/-- The token loop of `SearchService.SearchDocuments`: skip stop words,
stem, expand to keys (aborting the query on a key-generator error) and
run the key loop. -/
def ssSearchTokens (idx : List Nat → List (String × Nat) × Option GoErr)
    (keyGen : String → List (List Nat) × Option GoErr) :
    List String → List (String × Nat × Nat) →
      List (String × Nat × Nat) × Option GoErr
  | [], m => (m, none)
  | tok :: rest, m =>
    if isStopWord tok then ssSearchTokens idx keyGen rest m
    else
      match keyGen (snowballStem tok) with
      | (_, some e) => (m, some e)
      | (keys, none) =>
        match ssSearchKeys idx keys m with
        | (m', none) => ssSearchTokens idx keyGen rest m'
        | (m', some e) => (m', some e)

/-- `SearchService.SearchDocuments(query, maxResults)`: tokenize, run
the token loop, sort the collected matches and slice
`results[:lastIndex]`; returns `(ResultData, TotalResultsCount)` or the
error.  Timings are omitted (wall-clock strings). -/
def ssSearchDocuments (idx : List Nat → List (String × Nat) × Option GoErr)
    (keyGen : String → List (List Nat) × Option GoErr)
    (query : String) (maxResults : Nat) :
    Option (List (String × Nat × Nat) × Nat) × Option GoErr :=
  match ssSearchTokens idx keyGen (tokenizeAscii query) [] with
  | (_, some e) => (none, some e)
  | (m, none) =>
    let results := sortBy resultLess m
    (some (results.take (lastIndexGo m.length maxResults), m.length), none)

/-- The key loop of `SearchService.IndexDocument`: insert each key,
wrapping and returning the first insert error. -/
def ssInsertKeys {σ : Type}
    (ins : σ → List Nat → String → σ × Option GoErr) :
    σ → List (List Nat) → String → σ × Option GoErr
  | st, [], _ => (st, none)
  | st, k :: ks, d =>
    match ins st k d with
    | (st', none) => ssInsertKeys ins st' ks d
    | (st', some e) => (st', some (.wrap e))

/-- The token loop of `SearchService.IndexDocument`: skip stop words,
stem, expand to keys (wrapping and returning a key-generator error) and
insert every key, aborting the whole document on the first failure. -/
def ssIndexTokens {σ : Type}
    (ins : σ → List Nat → String → σ × Option GoErr)
    (keyGen : String → List (List Nat) × Option GoErr) :
    σ → List String → String → σ × Option GoErr
  | st, [], _ => (st, none)
  | st, tok :: rest, d =>
    if isStopWord tok then ssIndexTokens ins keyGen st rest d
    else
      match keyGen (snowballStem tok) with
      | (_, some e) => (st, some (.wrap e))
      | (keys, none) =>
        match ssInsertKeys ins st keys d with
        | (st', none) => ssIndexTokens ins keyGen st' rest d
        | (st', some e) => (st', some e)

/-- `SearchService.IndexDocument(docID, content)`. -/
def ssIndexDocument {σ : Type}
    (ins : σ → List Nat → String → σ × Option GoErr)
    (keyGen : String → List (List Nat) × Option GoErr)
    (st : σ) (docID content : String) : σ × Option GoErr :=
  ssIndexTokens ins keyGen st (tokenizeAscii content) docID

/-! ## `Trie.SearchDocuments` of the trigram trie
(`fts_trigram_trie.go`), the self-contained variant: key expansion is
inlined and a token without trigrams aborts the query with
`ErrInvalidTrigramSize`. -/

/-- The trigram loop of `Trie.SearchDocuments`: `Search` each trigram,
abort on error, skip nil results, accumulate matches. -/
def trigramSearchKeys (t : TNode) :
    List (List Nat) → List (String × Nat × Nat) →
      List (String × Nat × Nat) × Option GoErr
  | [], m => (m, none)
  | k :: ks, m =>
    match trigramSearch t k with
    | (_, some e) => (m, some e)
    | (docs?, none) =>
      match docs? with
      | none => trigramSearchKeys t ks m
      | some docs => trigramSearchKeys t ks
          (docs.foldl (fun acc p => bumpMatch acc p.1 p.2) m)

/-- The token loop of `Trie.SearchDocuments`. -/
def trigramSearchTokens (t : TNode) :
    List String → List (String × Nat × Nat) →
      List (String × Nat × Nat) × Option GoErr
  | [], m => (m, none)
  | tok :: rest, m =>
    if isStopWord tok then trigramSearchTokens t rest m
    else
      let tris := getTrigrams (utf8Bytes (snowballStem tok))
      if tris.length = 0 then (m, some .invalidSize)
      else
        match trigramSearchKeys t tris m with
        | (m', none) => trigramSearchTokens t rest m'
        | (m', some e) => (m', some e)

/-- `Trie.SearchDocuments(query, maxResults)` of the trigram trie. -/
def trigramSearchDocuments (t : TNode) (query : String) (maxResults : Nat) :
    Option (List (String × Nat × Nat) × Nat) × Option GoErr :=
  match trigramSearchTokens t (tokenizeAscii query) [] with
  | (_, some e) => (none, some e)
  | (m, none) =>
    let results := sortBy resultLess m
    (some (results.take (lastIndexGo m.length maxResults), m.length), none)

/-- The token loop of the trigram trie's own `IndexDocument`: a failing
insert is printed and skipped (`fmt.Println(err); continue`), the loop
goes on with the remaining trigrams and tokens. -/
def trigramIndexTokens (t : TNode) : List String → String → TNode
  | [], _ => t
  | tok :: rest, d =>
    if isStopWord tok then trigramIndexTokens t rest d
    else
      let tris := getTrigrams (utf8Bytes (snowballStem tok))
      let t' := tris.foldl (fun acc k => (trigramInsert acc k d).1) t
      trigramIndexTokens t' rest d

/-- `Trie.IndexDocument(docID, content)` of the trigram trie: returns
no error; insert failures are logged and skipped. -/
def trigramIndexDocument (t : TNode) (docID content : String) : TNode :=
  trigramIndexTokens t (tokenizeAscii content) docID

/-! ## Radix trie (`internal/services/fts/radix/radix.go`, pointer
variant; the sliced variant `radix_hash_trie.go` runs the identical
algorithm over arena indices).  The Go field `prefix` is a reserved
word in Lean and is rendered `pfx`. -/

/-- A radix-trie node: `terminal bool`, `prefix string` (as bytes),
`children []*Node` and the posting map `docs`. -/
inductive RNode where
  | mk (terminal : Bool) (pfx : List Nat) (children : List RNode)
      (docs : List (String × Nat))

/-- The `terminal` flag. -/
def RNode.terminal : RNode → Bool
  | .mk t _ _ _ => t

/-- The `prefix` field (bytes). -/
def RNode.pfx : RNode → List Nat
  | .mk _ p _ _ => p

/-- The `children` slice. -/
def RNode.children : RNode → List RNode
  | .mk _ _ c _ => c

/-- The `docs` posting map. -/
def RNode.docs : RNode → List (String × Nat)
  | .mk _ _ _ d => d

/-- The empty root `newNode("")`. -/
def emptyRadix : RNode :=
  .mk false [] [] []

/-- `lcp`: length of the longest common prefix of two byte strings. -/
def lcp : List Nat → List Nat → Nat
  | a :: as, b :: bs => if a = b then 1 + lcp as bs else 0
  | _, _ => 0

/-- The child scan of the Go `for i, child := range current.children`
loop: the first child (with its index) sharing a nonzero common prefix
with the remaining suffix; children with `p == 0` are skipped. -/
def findChildIdx (rest : List Nat) : List RNode → Option (Nat × RNode)
  | [] => none
  | c :: cs =>
    if 0 < lcp rest c.pfx then some (0, c)
    else (findChildIdx rest cs).map (fun p => (p.1 + 1, p.2))

/-- The body of `Trie.Insert`, one pass of the outer `for` loop per
recursive call on the remaining suffix `rest`.  Each descent consumes
at least one byte, which bounds the loop by the fuel `rest.length + 1`
passed at top level (the zero-fuel branch is unreachable). -/
def radixInsertGo (d : String) : Nat → RNode → List Nat → RNode
  | 0, n, _ => n
  | fuel + 1, n, rest =>
    match findChildIdx rest n.children with
    | none =>
      RNode.mk n.terminal n.pfx
        (n.children ++ [RNode.mk true rest [] [(d, 1)]]) n.docs
    | some (i, child) =>
      let p := lcp rest child.pfx
      if p = child.pfx.length then
        (if rest.drop p = [] then
          RNode.mk n.terminal n.pfx
            (n.children.set i
              (RNode.mk true child.pfx child.children (bumpDoc child.docs d)))
            n.docs
        else
          RNode.mk n.terminal n.pfx
            (n.children.set i (radixInsertGo d fuel child (rest.drop p)))
            n.docs)
      else
        let common := child.pfx.take p
        let childSuffix := child.pfx.drop p
        let newSuffix := rest.drop p
        let child' := RNode.mk child.terminal childSuffix child.children
          child.docs
        if newSuffix = [] then
          RNode.mk n.terminal n.pfx
            (n.children.set i (RNode.mk true common [child'] [(d, 1)])) n.docs
        else
          RNode.mk n.terminal n.pfx
            (n.children.set i
              (RNode.mk false common
                [child', RNode.mk true newSuffix [] [(d, 1)]] []))
            n.docs

/-- `Trie.Insert(word, docID)` (always returns nil in Go). -/
def radixInsert (root : RNode) (word : List Nat) (d : String) : RNode :=
  radixInsertGo d (word.length + 1) root word

/-- `Trie.next(current, rest)`: `(nextNode, nextRest, matched, exact)`.
Case 1 (`p == len(rest)`) reports an exact match whenever the child is
terminal; case 2 descends when the child's prefix is fully consumed;
everything else is a miss. -/
def radixNext (cur : RNode) (rest : List Nat) :
    Option RNode × List Nat × Bool × Bool :=
  match findChildIdx rest cur.children with
  | none => (none, [], false, false)
  | some (_, child) =>
    let p := lcp rest child.pfx
    if p = rest.length then
      (if child.terminal then (some child, [], true, true)
       else (none, [], false, false))
    else if p = child.pfx.length then (some child, rest.drop p, true, false)
    else (none, [], false, false)

/-- The loop of `Trie.Search`: advance with `next` until a miss
(`nil`) or an exact match (the docs snapshot).  Fuel as in
`radixInsertGo`. -/
def radixSearchGo : Nat → RNode → List Nat → Option (List (String × Nat))
  | 0, _, _ => none
  | fuel + 1, cur, rest =>
    match radixNext cur rest with
    | (nodeOpt, rest', matched, exact) =>
      if !matched then none
      else if exact then nodeOpt.map (fun n => n.docs)
      else
        match nodeOpt with
        | some nxt => radixSearchGo fuel nxt rest'
        | none => none

/-- `Trie.Search(word)`: `none` models the `nil, nil` miss, `some docs`
the `collectDocs` snapshot of the matched terminal's posting map. -/
def radixSearch (root : RNode) (word : List Nat) :
    Option (List (String × Nat)) :=
  radixSearchGo (word.length + 1) root word

/-! ## HAMT with pointer nodes (`internal/services/fts/ham_trie/ham_trie.go`).
Internal nodes hold a 32-bit bitmap with a dense `children []any`
slice; terminals hold an 8-bit bitmap over the two lowest hash bits and
a bucket of `(key, docs)` entries; `Document.count` is a `uint16` and
wraps modulo 65536. -/

/-- 32-bit FNV-1a of a byte sequence (`hash/fnv`). -/
def fnv32a (bytes : List Nat) : Nat :=
  bytes.foldl (fun h b => ((h ^^^ b) * 16777619) % 4294967296) 2166136261

/-- Population count (`math/bits.OnesCount32` / `OnesCount8`), as the
number of set bits among the low 32 (all values used are below
`2^32`). -/
def onesCount32 (x : Nat) : Nat :=
  ((List.range 32).filter (fun i => x.testBit i)).length

/-- A ham_trie tree: internal `Node{bitmap, children}` or
`Terminal{bitmap, entries}` (the Go `children []any` holds either). -/
inductive HTree where
  | node (bitmap : Nat) (children : List HTree)
  | term (bitmap : Nat) (entries : List (List Nat × List (String × Nat)))

/-- `addDoc`: increment the `uint16` count of `docID` in place, or
append a `(docID, 1)` entry. -/
def addDocGo : List (String × Nat) → String → List (String × Nat)
  | [], d => [(d, 1)]
  | (k, c) :: rest, d =>
    if k = d then (k, (c + 1) % 65536) :: rest
    else (k, c) :: addDocGo rest d

/-- `lookupTerminalEntry`: the 2 lowest hash bits index the terminal
bitmap; returns the slotted entry (with its dense position) when the
bit is set. -/
def lookupTermEntry (bitmap : Nat)
    (entries : List (List Nat × List (String × Nat))) (hash : Nat) :
    Option (Nat × (List Nat × List (String × Nat))) × Nat × Nat :=
  let idx := hash % 4
  let mask := 2 ^ idx
  let pos := onesCount32 (bitmap &&& (mask - 1))
  if bitmap &&& mask = 0 then (none, pos, mask)
  else ((entries.get? pos).map (fun e => (pos, e)), pos, mask)

/-- `insertIntoTerminal`: a free slot gets a fresh entry spliced at the
dense position.  When the slot is occupied and its key matches, the
code calls `addDoc` — and then, lacking a `return`, ALSO runs the
"fallback" loop (whose comment says "keys differ"), which finds the
same entry and calls `addDoc` a second time; otherwise the fallback
loop updates the first entry with a matching key or appends a new
one. -/
def insertIntoTerminal (bitmap : Nat)
    (entries : List (List Nat × List (String × Nat))) (hash : Nat)
    (key : List Nat) (d : String) :
    Nat × List (List Nat × List (String × Nat)) :=
  match lookupTermEntry bitmap entries hash with
  | (none, pos, mask) =>
    (bitmap ||| mask, entries.insertIdx pos (key, [(d, 1)]))
  | (some (pos, entry), _, _) =>
    let entries1 :=
      if entry.1 = key then entries.set pos (entry.1, addDocGo entry.2 d)
      else entries
    match entries1.findIdx? (fun e => decide (e.1 = key)) with
    | some i =>
      match entries1.get? i with
      | some e => (bitmap, entries1.set i (e.1, addDocGo e.2 d))
      | none => (bitmap, entries1)
    | none => (bitmap, entries1 ++ [(key, [(d, 1)])])

/-- `insertNode`: at `level == maxLevel` (7) the child slot holds the
terminal; otherwise descend, creating missing internal nodes.  The
5-bit slot index is `(hash >> (level*5)) & 0b11111`; Go shifts of a
`uint32` by 35 at level 7 yield 0.  Fuel bounds the eight levels; the
zero-fuel and type-confusion branches are unreachable from the API. -/
def hamInsertNode (hash : Nat) (key : List Nat) (d : String) :
    Nat → HTree → Nat → HTree
  | _, .term b e, _ => .term b e
  | 0, t, _ => t
  | fuel + 1, .node bitmap children, level =>
    let idx := (hash >>> (level * 5)) % 32
    let mask := 2 ^ idx
    let pos := onesCount32 (bitmap &&& (mask - 1))
    let childOpt := if bitmap &&& mask = 0 then none else children.get? pos
    if level = 7 then
      match childOpt with
      | none =>
        let r := insertIntoTerminal 0 [] hash key d
        .node (bitmap ||| mask) (children.insertIdx pos (.term r.1 r.2))
      | some (.term tb te) =>
        let r := insertIntoTerminal tb te hash key d
        .node bitmap (children.set pos (.term r.1 r.2))
      | some (.node _ _) => .node bitmap children
    else
      match childOpt with
      | none =>
        .node (bitmap ||| mask)
          (children.insertIdx pos
            (hamInsertNode hash key d fuel (.node 0 []) (level + 1)))
      | some (.node nb nc) =>
        .node bitmap
          (children.set pos
            (hamInsertNode hash key d fuel (.node nb nc) (level + 1)))
      | some (.term _ _) => .node bitmap children

/-- `Trie.Insert(word, docID)` of ham_trie (always returns nil). -/
def hamInsert (t : HTree) (word : List Nat) (d : String) : HTree :=
  hamInsertNode (fnv32a word) word d 9 t 0

/-- `searchTerminal`: the slotted entry's docs iff its key equals the
query key. -/
def hamSearchTerminal (tb : Nat)
    (te : List (List Nat × List (String × Nat))) (hash : Nat)
    (key : List Nat) : Option (List (String × Nat)) :=
  match lookupTermEntry tb te hash with
  | (some (_, e), _, _) => if e.1 = key then some e.2 else none
  | (none, _, _) => none

/-- The level loop of `Trie.Search` of ham_trie. -/
def hamSearchGo (hash : Nat) (key : List Nat) :
    Nat → HTree → Nat → Option (List (String × Nat))
  | _, .term _ _, _ => none
  | 0, _, _ => none
  | fuel + 1, .node bitmap children, level =>
    let idx := (hash >>> (level * 5)) % 32
    let mask := 2 ^ idx
    let pos := onesCount32 (bitmap &&& (mask - 1))
    let childOpt := if bitmap &&& mask = 0 then none else children.get? pos
    match childOpt with
    | none => none
    | some child =>
      if level = 7 then
        match child with
        | .term tb te => hamSearchTerminal tb te hash key
        | .node _ _ => none
      else
        match child with
        | .node nb nc => hamSearchGo hash key fuel (.node nb nc) (level + 1)
        | .term _ _ => none

/-- `Trie.Search(word)` of ham_trie: `none` is the `nil, nil` miss,
`some docs` the `collectDocs` map of the matched bucket entry. -/
def hamSearch (t : HTree) (word : List Nat) :
    Option (List (String × Nat)) :=
  hamSearchGo (fnv32a word) word 9 t 0

/-- The empty ham_trie (`NewTrie`). -/
def hamNew : HTree :=
  .node 0 []

/-! ## Arena HAMT (`internal/services/fts/hamt/hamt.go`): internal
nodes and terminals live in two append-only vectors and "pointers" are
indices (`nodeptr = uint32`). -/

/-- An arena internal node: 32-bit `bitmap` and dense `children`
array of arena indices. -/
structure HamtNode where
  bitmap : Nat
  children : List Nat
  deriving DecidableEq, Repr

/-- An arena terminal: the ordered bucket of `(key, docs)` entries. -/
structure HamtTerm where
  entries : List (List Nat × List (String × Nat))
  deriving DecidableEq, Repr

/-- The arena trie: `nodes` and `terms` vectors; the root is node 0. -/
structure HamtTrie where
  nodes : List HamtNode
  terms : List HamtTerm
  deriving DecidableEq, Repr

/-- `New()`: one empty root node, no terminals. -/
def hamtNew : HamtTrie :=
  ⟨[⟨0, []⟩], []⟩

/-- Byte-lexicographic ≤ on keys, modelling Go's string comparison. -/
def bytesLe : List Nat → List Nat → Bool
  | [], _ => true
  | _ :: _, [] => false
  | a :: as, b :: bs =>
    if a < b then true else if a = b then bytesLe as bs else false

/-- `Documents.Add`: `sort.Search` finds the first entry with
`ID >= id` in the ordered docs array (modelled by `findIdx`, which
returns the same index on the sorted data); a match increments its
count, otherwise a `(id, 1)` document is spliced in. -/
def documentsAdd (l : List (String × Nat)) (id : String) :
    List (String × Nat) :=
  let i := l.findIdx (fun p => decide (id ≤ p.1))
  match l.get? i with
  | some p =>
    if p.1 = id then l.set i (p.1, p.2 + 1) else l.insertIdx i (id, 1)
  | none => l.insertIdx i (id, 1)

/-- `Terminal.Append`: binary search over the ordered bucket; a key
match delegates to `Documents.Add`, otherwise a fresh entry is spliced
in at the ordered position. -/
def termAppend (entries : List (List Nat × List (String × Nat)))
    (word : List Nat) (id : String) :
    List (List Nat × List (String × Nat)) :=
  let i := entries.findIdx (fun e => bytesLe word e.1)
  match entries.get? i with
  | some e =>
    if e.1 = word then entries.set i (e.1, documentsAdd e.2 id)
    else entries.insertIdx i (word, [(id, 1)])
  | none => entries.insertIdx i (word, [(id, 1)])

/-- `Node.Append`: set the bit and splice the branch into the dense
children array at the popcount position (computed, as in the Go code,
from the updated bitmap; the masked-out bit makes both readings
equal). -/
def hamtNodeAppend (n : HamtNode) (idx : Nat) (branch : Nat) : HamtNode :=
  let mask := 2 ^ idx
  let bm := n.bitmap ||| mask
  ⟨bm, n.children.insertIdx (onesCount32 (bm &&& (mask - 1))) branch⟩

/-- `Trie.nextNode`: follow the 5 lowest bits of `hash`; `(n, false)`
when the slot bit is clear, else the child index at the popcount
position (`1 << (hash & lowerbits)` is `2 ^ (hash % 32)`). -/
def hamtNextNode (t : HamtTrie) (n : Nat) (hash : Nat) : Nat × Bool :=
  if (t.nodes.getD n ⟨0, []⟩).bitmap &&& 2 ^ (hash % 32) = 0 then (n, false)
  else ((t.nodes.getD n ⟨0, []⟩).children.getD
    (onesCount32 ((t.nodes.getD n ⟨0, []⟩).bitmap &&&
      (2 ^ (hash % 32) - 1))) 0, true)

/-- The `for range depth - 2` loop of `Trie.Insert`: five levels of
descent, creating missing internal nodes (append a fresh node to the
arena, splice its index into the current node) and shifting the hash
by 5 bits per level. -/
def hamtInsertLoop : Nat → HamtTrie → Nat → Nat → HamtTrie × Nat × Nat
  | 0, t, node, hash => (t, node, hash)
  | k + 1, t, node, hash =>
    let r := hamtNextNode t node hash
    if r.2 then hamtInsertLoop k t r.1 (hash >>> 5)
    else
      let t1 : HamtTrie := ⟨t.nodes ++ [⟨0, []⟩], t.terms⟩
      let newIdx := t1.nodes.length - 1
      let t2 : HamtTrie :=
        ⟨t1.nodes.set node
          (hamtNodeAppend (t1.nodes.getD node ⟨0, []⟩) (hash % 32) newIdx),
         t1.terms⟩
      hamtInsertLoop k t2 newIdx (hash >>> 5)

/-- `Trie.Insert(word, id)` of the arena HAMT: five node levels, then
the sixth node's slot holds (or receives) the terminal index, whose
bucket is appended to. -/
def hamtInsert (t : HamtTrie) (word : List Nat) (d : String) : HamtTrie :=
  let r := hamtInsertLoop 5 t 0 (fnv32a word)
  let t1 := r.1
  let node := r.2.1
  let hash := r.2.2
  let s := hamtNextNode t1 node hash
  if s.2 then
    ⟨t1.nodes,
     t1.terms.set s.1
       ⟨termAppend ((t1.terms.getD s.1 ⟨[]⟩).entries) word d⟩⟩
  else
    let t2 : HamtTrie := ⟨t1.nodes, t1.terms ++ [⟨[]⟩]⟩
    let tp := t2.terms.length - 1
    let t3 : HamtTrie :=
      ⟨t2.nodes.set node
        (hamtNodeAppend (t2.nodes.getD node ⟨0, []⟩) (hash % 32) tp),
       t2.terms⟩
    ⟨t3.nodes,
     t3.terms.set tp ⟨termAppend ((t3.terms.getD tp ⟨[]⟩).entries) word d⟩⟩

/-- The `for range depth - 1` loop of `Trie.Search`: six levels of
`nextNode`, failing (`nil, nil`) on a clear slot bit. -/
def hamtSearchLoop : Nat → HamtTrie → Nat → Nat → Option Nat
  | 0, _, node, _ => some node
  | k + 1, t, node, hash =>
    let r := hamtNextNode t node hash
    if r.2 then hamtSearchLoop k t r.1 (hash >>> 5) else none

/-- `Terminal.Find`: `sort.Search` locates the first entry with
`key >= word` in the ordered bucket (modelled by `findIdx`); the docs
are returned on an exact key match. -/
def termFind (entries : List (List Nat × List (String × Nat)))
    (word : List Nat) : Option (List (String × Nat)) :=
  let i := entries.findIdx (fun e => bytesLe word e.1)
  match entries.get? i with
  | some e => if e.1 = word then some e.2 else none
  | none => none

/-- `Trie.Search(key)` of the arena HAMT. -/
def hamtSearch (t : HamtTrie) (word : List Nat) :
    Option (List (String × Nat)) :=
  match hamtSearchLoop 6 t 0 (fnv32a word) with
  | none => none
  | some node =>
    let term := t.terms.getD node ⟨[]⟩
    if term.entries = [] then none
    else termFind term.entries word

/-- Apply a list of `(key, docID)` inserts to the empty arena HAMT. -/
def hamtRun (ops : List (List Nat × String)) : HamtTrie :=
  ops.foldl (fun t op => hamtInsert t op.1 op.2) hamtNew

/-! ## The inverted KV index
(`internal/storage/leveldb/leveldb.go`, `SaveDocumentWithIndexing`).
The external ordered KV store is modelled as an association list with
point lookup and overwriting put; the Go code reads existing values
directly from the store while accumulating all writes in a batch that
is applied atomically at the end, so every read sees the pre-call
state. -/

/-- Point lookup in the KV store (`db.Get`); `none` is the not-found
error. -/
def kvGet : List (String × String) → String → Option String
  | [], _ => none
  | (k', v') :: rest, k => if k' = k then some v' else kvGet rest k

/-- `batch.Put`: overwrite the value under `k`, or add the record. -/
def kvPut : List (String × String) → String → String → List (String × String)
  | [], k, v => [(k, v)]
  | (k', v') :: rest, k, v =>
    if k' = k then (k, v) :: rest else (k', v') :: kvPut rest k v

/-- The distinct words of the document in first-occurrence order,
modelling the iteration over the Go `wordsCount` map (whose order is
unspecified; all puts hit distinct keys, so the final store does not
depend on it). -/
def firstOccurAux : List String → List String → List String
  | [], _ => []
  | w :: rest, seen =>
    if w ∈ seen then firstOccurAux rest seen
    else w :: firstOccurAux rest (w :: seen)

/-- First occurrences of a word list. -/
def firstOccur (l : List String) : List String :=
  firstOccurAux l []

/-- The posting entry `"<docID>:<count>"` written by one indexing
call. -/
def postingEntry (docID : String) (count : Nat) : String :=
  docID ++ ":" ++ toString count

/-- The new value for `word:<w>`: the existing value, followed by `,`
when it was present and non-empty, with the entry appended. -/
def appendPosting (existing : Option String) (docID : String)
    (count : Nat) : String :=
  (match existing with
   | some v => if 0 < v.length then v ++ "," else v
   | none => "") ++ postingEntry docID count

/-- `Storage.SaveDocumentWithIndexing`: put the document blob under
`doc:<id>`, then for every distinct word put the appended posting list
under `word:<w>` with `count` the multiplicity of the word in `words`;
all reads are against the pre-call store. -/
def saveDocumentWithIndexing (db : List (String × String))
    (docID docJSON : String) (words : List String) :
    List (String × String) :=
  (firstOccur words).foldl
    (fun acc w =>
      kvPut acc ("word:" ++ w)
        (appendPosting (kvGet db ("word:" ++ w)) docID (words.count w)))
    (kvPut db ("doc:" ++ docID) docJSON)

@[simp] theorem TNode.docs_mk (d : List (String × Nat))
    (c : Fin 26 → Option TNode) : (TNode.mk d c).docs = d := rfl

@[simp] theorem TNode.continuations_mk (d : List (String × Nat))
    (c : Fin 26 → Option TNode) : (TNode.mk d c).continuations = c := rfl

@[simp] theorem TNode.docs_setCont (n : TNode) (i : Fin 26) (c : TNode) :
    (n.setCont i c).docs = n.docs := by
  cases n; rfl

@[simp] theorem TNode.continuations_setCont (n : TNode) (i : Fin 26)
    (c : TNode) : (n.setCont i c).continuations =
      Function.update n.continuations i (some c) := by
  cases n; rfl

theorem TNode.eta (n : TNode) : TNode.mk n.docs n.continuations = n := by
  cases n; rfl

/-- The wrapped `uint8` index is below 26 exactly for the bytes of
`'a'..'z'`. -/
theorem byteIndex_lt_iff (b : Nat) (hb : b < 256) :
    byteIndex b < 26 ↔ 97 ≤ b ∧ b ≤ 122 := by
  unfold byteIndex
  omega

/-- Searching below a freshly created node finds nothing. -/
theorem searchGo_newTNode (b : Nat) (rest : List Nat) :
    (searchGo newTNode (b :: rest)).1 = none := by
  by_cases h : 26 ≤ byteIndex b <;>
    simp [searchGo, h, newTNode, TNode.continuations]

/-- `insertGo` succeeds exactly when every remaining byte is in
`'a'..'z'`. -/
theorem insertGo_error_iff (d : String) :
    ∀ (bs : List Nat) (n : TNode), (∀ b ∈ bs, b < 256) →
      ((insertGo n bs d).2 = none ↔ ∀ b ∈ bs, 97 ≤ b ∧ b ≤ 122) := by
  intro bs
  induction bs with
  | nil => simp [insertGo]
  | cons b rest ih =>
    intro n hb
    have hb0 : b < 256 := hb b (by simp)
    by_cases h : 26 ≤ byteIndex b
    · have : ¬(97 ≤ b ∧ b ≤ 122) := by
        intro hc
        exact absurd ((byteIndex_lt_iff b hb0).2 hc) (by omega)
      simp [insertGo, h, this]
    · have hvalid : 97 ≤ b ∧ b ≤ 122 := by
        have := (byteIndex_lt_iff b hb0).1 (by omega)
        exact this
      simp only [insertGo, dif_neg h]
      rw [ih _ (fun x hx => hb x (by simp [hx]))]
      simp [hvalid]

/-- On success, `insertGo` leaves the trie searchable at the inserted
key, with the posting map for that key bumped at `d`. -/
theorem insertGo_success_search (d : String) :
    ∀ (bs : List Nat) (n : TNode), (insertGo n bs d).2 = none →
      (searchGo (insertGo n bs d).1 bs).1 =
        some (bumpDoc ((searchGo n bs).1.getD []) d) := by
  intro bs
  induction bs with
  | nil => intro n _; simp [insertGo, searchGo]
  | cons b rest ih =>
    intro n hok
    by_cases h : 26 ≤ byteIndex b
    · simp [insertGo, h] at hok
    · simp only [insertGo, dif_neg h] at hok ⊢
      simp only [searchGo, dif_neg h, TNode.continuations_setCont,
        Function.update_same]
      rw [ih _ hok]
      cases hc : n.continuations ⟨byteIndex b, by omega⟩ with
      | none =>
        rcases rest with _ | ⟨b', rest'⟩
        · simp [hc, searchGo, newTNode, TNode.docs]
        · simp [hc, searchGo_newTNode, hc]
      | some c0 => simp [hc]

/-- When `insertGo` fails, no search of the same depth can observe a
changed posting map: the nodes created before the failure are empty and
carry no continuations outside the failed descent. -/
theorem insertGo_error_search (d : String) :
    ∀ (bs bs' : List Nat) (n : TNode), bs.length = bs'.length →
      (insertGo n bs d).2 ≠ none →
      (searchGo (insertGo n bs d).1 bs').1 = (searchGo n bs').1 := by
  intro bs
  induction bs with
  | nil => intro bs' n _ herr; simp [insertGo] at herr
  | cons b rest ih =>
    intro bs' n hlen herr
    rcases bs' with _ | ⟨b', rest'⟩
    · simp at hlen
    by_cases h : 26 ≤ byteIndex b
    · simp [insertGo, h]
    · simp only [insertGo, dif_neg h] at herr ⊢
      by_cases h' : 26 ≤ byteIndex b'
      · simp [searchGo, h']
      · simp only [searchGo, dif_neg h', TNode.continuations_setCont]
        by_cases hij : (⟨byteIndex b', by omega⟩ : Fin 26) =
            (⟨byteIndex b, by omega⟩ : Fin 26)
        · rw [hij, Function.update_same]
          cases hc : n.continuations ⟨byteIndex b, by omega⟩ with
          | none =>
            rw [hc] at herr
            simp only [Option.getD_none] at herr ⊢
            have hrest : rest ≠ [] := by
              intro hnil
              subst hnil
              simp [insertGo] at herr
            rcases rest' with _ | ⟨b'', rest''⟩
            · rcases rest with _ | _
              · exact absurd rfl hrest
              · simp at hlen
            · rw [ih (b'' :: rest'') newTNode (by simpa using hlen) herr]
              simp [searchGo_newTNode]
          | some c0 =>
            rw [hc] at herr
            simp only [Option.getD_some] at herr ⊢
            rw [ih rest' c0 (by simpa using hlen) herr]
        · rw [Function.update_noteq hij]

/-- C8: trigram-trie `Insert(key, docID)` returns an invalid-key error
if and only if `len(key) != 3` or some byte of `key` lies outside
`'a'..'z'`; when it returns nil, the key was accepted and its posting
for `docID` incremented: a subsequent `Search(key)` returns the
previous posting map with the entry for `docID` bumped. -/
theorem c8_trigram_insert_invalid_key (t : TNode) (k : List Nat)
    (d : String) (hk : ∀ b ∈ k, b < 256) :
    ((trigramInsert t k d).2 = none ↔
      k.length = 3 ∧ ∀ b ∈ k, 97 ≤ b ∧ b ≤ 122) ∧
    ((trigramInsert t k d).2 = none →
      (trigramSearch (trigramInsert t k d).1 k).1 =
        some (bumpDoc ((trigramSearch t k).1.getD []) d)) := by
  by_cases hlen : k.length = 3
  · constructor
    · simp only [trigramInsert, if_pos hlen]
      rw [insertGo_error_iff d k t hk]
      simp [hlen]
    · intro hok
      simp only [trigramInsert, if_pos hlen] at hok ⊢
      simp only [trigramSearch, if_pos hlen]
      exact insertGo_success_search d k t hok
  · simp [trigramInsert, hlen]

theorem c8_trigram_insert_invalid_key_witness :
    (trigramInsert newTNode (utf8Bytes "abc") "x").2 = none ∧
    (trigramSearch (trigramInsert newTNode (utf8Bytes "abc") "x").1
      (utf8Bytes "abc")).1 = some [("x", 1)] := by
  have h := c8_trigram_insert_invalid_key newTNode (utf8Bytes "abc") "x"
    (by decide)
  have hok : (trigramInsert newTNode (utf8Bytes "abc") "x").2 = none :=
    h.1.mpr (by decide)
  refine ⟨hok, ?_⟩
  rw [h.2 hok]
  decide

/-- C10: when trigram-trie `Insert(key, docID)` returns an error, the
observable index state is unchanged: for every key `k'`, the posting
map returned by `Search(k')` after the failed insert is exactly the
posting map it returned before (the failed insert may allocate empty
intermediate nodes, but no posting is added or modified on any error
path). -/
theorem c10_trigram_failed_insert_preserves_postings (t : TNode)
    (k : List Nat) (d : String) (herr : (trigramInsert t k d).2 ≠ none)
    (k' : List Nat) :
    (trigramSearch (trigramInsert t k d).1 k').1 =
      (trigramSearch t k').1 := by
  by_cases hlen : k.length = 3
  · simp only [trigramInsert, if_pos hlen] at herr ⊢
    by_cases hlen' : k'.length = 3
    · simp only [trigramSearch, if_pos hlen']
      exact insertGo_error_search d k k' t (by omega) herr
    · simp [trigramSearch, hlen']
  · simp [trigramInsert, hlen]

theorem c10_trigram_failed_insert_preserves_postings_witness :
    (trigramInsert (trigramInsert newTNode (utf8Bytes "abc") "d1").1
      (utf8Bytes "a!c") "d2").2 ≠ none ∧
    (trigramSearch (trigramInsert
        (trigramInsert newTNode (utf8Bytes "abc") "d1").1
        (utf8Bytes "a!c") "d2").1 (utf8Bytes "abc")).1 =
      (trigramSearch (trigramInsert newTNode (utf8Bytes "abc") "d1").1
        (utf8Bytes "abc")).1 :=
  ⟨by decide,
    c10_trigram_failed_insert_preserves_postings
      (trigramInsert newTNode (utf8Bytes "abc") "d1").1
      (utf8Bytes "a!c") "d2" (by decide) (utf8Bytes "abc")⟩

/-- C1: the result list is NOT truncated to `maxResults`, in either of
the two `SearchDocuments` implementations.  On an index where the two
documents d1 and d2 both match the query key "abc",
`SearchDocuments("abc", 1)` returns all 2 results (and reports 2 total
matches) — first for the trigram trie's own `SearchDocuments`, second
for `SearchService.SearchDocuments` over the radix index with the word
key generator: after first lowering `maxResults` to the match count
when there are fewer matches, both copies of the code reset
`lastIndex` to the full match count exactly when it exceeds
`maxResults`, so the `results[:lastIndex]` slice is never a proper
truncation. -/
theorem c1_results_exceed_max_results :
    ((trigramSearchDocuments
        (trigramInsert (trigramInsert newTNode (utf8Bytes "abc") "d1").1
          (utf8Bytes "abc") "d2").1 "abc" 1).1.map
      (fun r => (r.1.length, r.2))) = some (2, 2) ∧
    ((ssSearchDocuments
        (fun k =>
          ((radixSearch
            (radixInsert (radixInsert emptyRadix (utf8Bytes "abc") "d1")
              (utf8Bytes "abc") "d2") k).getD [], none))
        wordKeysGen "abc" 1).1.map
      (fun r => (r.1.length, r.2))) = some (2, 2) := by
  constructor
  · decide
  · decide

/-- C4 counterexample: `SearchService.IndexDocument` paired with the
word key generator and the trigram index aborts the document on the
first failing insert: the key "hi" (length 2) is rejected by the
trigram index, the wrapped error is returned, and the later token
"hotel" is never indexed (its trigram "hot" is absent afterwards). -/
theorem c4_index_document_abort_counterexample :
    (ssIndexDocument trigramInsert wordKeysGen newTNode "d" "hi hotel").2 =
      some (.wrap .invalidSize) ∧
    (trigramSearch
      (ssIndexDocument trigramInsert wordKeysGen newTNode "d" "hi hotel").1
      (utf8Bytes "hot")).1 = none := by decide

/-- C4 amended: a failing insert aborts `SearchService.IndexDocument`,
which returns the wrapped insert error with the index state as it was
at the failure and does not index the remaining keys or tokens; only
the trigram trie's own `IndexDocument` logs and skips a failed insert
and continues (second conjunct: it indexes "hotel" past the failing
short token "hi"). -/
theorem c4_index_document_abort_policy :
    (∀ t : TNode,
      ssIndexDocument trigramInsert wordKeysGen t "d" "hi hotel" =
        (t, some (.wrap .invalidSize))) ∧
    (trigramSearch (trigramIndexDocument newTNode "d" "hi hotel")
      (utf8Bytes "hot")).1 = some [("d", 1)] :=
  ⟨fun _ => rfl, by decide⟩

/-- C5 counterexample: on the trigram search path, the query
"xy hotel" against an index containing "hotel" is aborted with
`ErrInvalidTrigramSize` because the stemmed token "xy" is shorter than
3 characters and `TrigramKeys` returns an error instead of an empty key
list; the second conjunct shows the same index answers the
query "hotel" normally, so the aborted query did lose the results the
other token would have contributed. -/
theorem c5_short_token_aborts_query_counterexample :
    ssSearchDocuments
      (fun k =>
        ((trigramSearch (trigramIndexDocument newTNode "d1" "hotel") k).1.getD [],
         (trigramSearch (trigramIndexDocument newTNode "d1" "hotel") k).2))
      trigramKeysGen "xy hotel" 10 = (none, some .invalidSize) ∧
    (ssSearchDocuments
      (fun k =>
        ((trigramSearch (trigramIndexDocument newTNode "d1" "hotel") k).1.getD [],
         (trigramSearch (trigramIndexDocument newTNode "d1" "hotel") k).2))
      trigramKeysGen "hotel" 10).1 = some ([("d1", 3, 3)], 1) :=
  ⟨by rfl, by rfl⟩

/-- C5 amended: a non-stop-word query token whose stemmed form is
shorter than 3 characters produces no keys, but it is not silently
skipped: `TrigramKeys` returns `ErrInvalidTrigramSize` and
`SearchService.SearchDocuments` aborts the whole query with that error,
for every index and every `maxResults`, before any other token can
contribute results. -/
theorem c5_short_token_aborts_query
    (idx : List Nat → List (String × Nat) × Option GoErr) (maxR : Nat) :
    ssSearchDocuments idx trigramKeysGen "xy hotel" maxR =
      (none, some .invalidSize) := rfl

/-- C6 counterexample: the token pipeline is not idempotent.  The
input "wills" stems to the term "will", but running the pipeline on
"will" yields nothing, because "will" is in the stop list and the
stop-word filter runs before stemming. -/
theorem c6_pipeline_not_idempotent :
    kvPreprocessText "wills" = ["will"] ∧ kvPreprocessText "will" = [] := by
  decide

/-- C6 amended: re-running the pipeline on a single term is the
identity only outside the stop list: a term that tokenizes to itself
and is already lowercase is dropped by the second pass when it is a
stop word (which stemming can produce, e.g. wills ↦ will), and is
returned unchanged when it is not a stop word and is fixed by the
stemmer. -/
theorem c6_pipeline_second_pass (t : String)
    (h1 : tokenizeKV t = [t]) (h2 : goToLowerStr t = t) :
    (stopWordsList.contains t = true → kvPreprocessText t = []) ∧
    (stopWordsList.contains t = false → snowballStem t = t →
      kvPreprocessText t = [t]) := by
  constructor
  · intro h3
    have h3' : t ∈ stopWordsList := by simpa using h3
    simp [kvPreprocessText, kvToLower, kvFilterStopWords, kvStem, h1, h2, h3']
  · intro h3 h4
    have h3' : t ∉ stopWordsList := by simpa using h3
    simp [kvPreprocessText, kvToLower, kvFilterStopWords, kvStem, h1, h2, h3',
      h4]

theorem c6_pipeline_second_pass_witness :
    kvPreprocessText "will" = [] ∧ kvPreprocessText "hotel" = ["hotel"] :=
  ⟨(c6_pipeline_second_pass "will" (by decide) (by decide)).1 (by decide),
   (c6_pipeline_second_pass "hotel" (by decide) (by decide)).2 (by decide)
     (by decide)⟩

theorem kvGet_put_same (db : List (String × String)) (k v : String) :
    kvGet (kvPut db k v) k = some v := by
  induction db with
  | nil => simp [kvPut, kvGet]
  | cons p rest ih =>
    by_cases h : p.1 = k
    · simp [kvPut, kvGet, h]
    · simp [kvPut, kvGet, h, ih]

theorem kvGet_put_other (db : List (String × String)) (k k' v : String)
    (h : k ≠ k') : kvGet (kvPut db k' v) k = kvGet db k := by
  induction db with
  | nil => simp [kvPut, kvGet, Ne.symm h]
  | cons p rest ih =>
    by_cases hp : p.1 = k'
    · simp [kvPut, kvGet, hp, Ne.symm h]
    · by_cases hq : p.1 = k
      · simp [kvPut, kvGet, hp, hq, h]
      · simp [kvPut, kvGet, hp, hq, h, ih]

theorem string_append_left_cancel (s a b : String)
    (h : s ++ a = s ++ b) : a = b := by
  have hd := congrArg String.data h
  simp only [String.data_append] at hd
  exact String.ext (List.append_cancel_left hd)

theorem word_key_ne_doc_key (a b : String) :
    ("word:" ++ a : String) ≠ "doc:" ++ b := by
  intro h
  have hd := congrArg String.data h
  simp only [String.data_append] at hd
  simp [show ("word:" : String).data = ['w', 'o', 'r', 'd', ':'] from rfl,
    show ("doc:" : String).data = ['d', 'o', 'c', ':'] from rfl] at hd

theorem mem_firstOccurAux (w : String) :
    ∀ (l seen : List String),
      w ∈ firstOccurAux l seen ↔ w ∈ l ∧ w ∉ seen := by
  intro l
  induction l with
  | nil => simp [firstOccurAux]
  | cons u rest ih =>
    intro seen
    by_cases hu : u ∈ seen
    · rw [firstOccurAux, if_pos hu, ih]
      constructor
      · rintro ⟨h1, h2⟩
        exact ⟨by simp [h1], h2⟩
      · rintro ⟨h1, h2⟩
        rcases List.mem_cons.1 h1 with h | h
        · exact absurd (h ▸ hu) h2
        · exact ⟨h, h2⟩
    · rw [firstOccurAux, if_neg hu]
      constructor
      · intro h
        rcases List.mem_cons.1 h with h | h
        · exact ⟨by simp [h], by simpa [h] using hu⟩
        · have := (ih (u :: seen)).1 h
          exact ⟨by simp [this.1], fun hc => this.2 (by simp [hc])⟩
      · rintro ⟨h1, h2⟩
        rcases List.mem_cons.1 h1 with h | h
        · simp [h]
        · by_cases hwu : w = u
          · simp [hwu]
          · exact List.mem_cons_of_mem _
              ((ih (u :: seen)).2 ⟨h, by simp [hwu, h2]⟩)

theorem nodup_firstOccurAux :
    ∀ (l seen : List String), (firstOccurAux l seen).Nodup := by
  intro l
  induction l with
  | nil => intro seen; simp [firstOccurAux]
  | cons u rest ih =>
    intro seen
    by_cases hu : u ∈ seen
    · rw [firstOccurAux, if_pos hu]; exact ih seen
    · rw [firstOccurAux, if_neg hu]
      refine List.nodup_cons.2 ⟨?_, ih (u :: seen)⟩
      intro hc
      exact ((mem_firstOccurAux u rest (u :: seen)).1 hc).2 (by simp)

theorem kvGet_fold_words (docID : String) (words : List String)
    (db : List (String × String)) (w : String) :
    ∀ (ws : List String) (acc : List (String × String)), ws.Nodup →
      kvGet (ws.foldl
        (fun acc u =>
          kvPut acc ("word:" ++ u)
            (appendPosting (kvGet db ("word:" ++ u)) docID
              (words.count u))) acc) ("word:" ++ w) =
        if w ∈ ws then
          some (appendPosting (kvGet db ("word:" ++ w)) docID
            (words.count w))
        else kvGet acc ("word:" ++ w) := by
  intro ws
  induction ws with
  | nil => intro acc _; simp
  | cons u us ih =>
    intro acc hnd
    rcases List.nodup_cons.1 hnd with ⟨hu, hus⟩
    by_cases hw : w = u
    · subst hw
      rw [List.foldl_cons, ih _ hus, if_neg hu, if_pos (by simp),
        kvGet_put_same]
    · rw [List.foldl_cons, ih _ hus]
      by_cases hwus : w ∈ us
      · rw [if_pos hwus, if_pos (by simp [hwus])]
      · rw [if_neg hwus, if_neg (by simp [hw, hwus]),
          kvGet_put_other _ _ _ _
            (fun hc => hw (string_append_left_cancel _ _ _ hc))]

/-- The appended posting value is never empty (it ends with the
`docID:count` entry, which contains `:`). -/
theorem appendPosting_length_pos (e : Option String) (d : String)
    (c : Nat) : 0 < (appendPosting e d c).length := by
  have hp : 0 < (postingEntry d c).length := by
    rw [postingEntry, String.length_append, String.length_append]
    have h1 : (":" : String).length = 1 := rfl
    omega
  rcases e with _ | v
  · simpa [appendPosting] using hp
  · have hlen : (appendPosting (some v) d c).length =
        ((if 0 < v.length then v ++ "," else v) : String).length +
          (postingEntry d c).length := by
      simp [appendPosting, String.length_append]
    omega

/-- Appending to a non-empty posting list inserts the `,` separator. -/
theorem appendPosting_some_pos (v d : String) (c : Nat)
    (h : 0 < v.length) :
    appendPosting (some v) d c = v ++ "," ++ postingEntry d c := by
  simp only [appendPosting, if_pos h]

/-- C9: when the KV index indexes a document, the value stored under
`word:<w>` for each distinct word `w` of the processed word list
becomes the previous value — followed by a single `,` when that
previous value was non-empty — with the entry `<docID>:<count>`
appended, where `count` is the multiplicity of `w` in the word list;
and an existing entry for the same docID is never merged: re-indexing
the same document appends a second identical `<docID>:<count>` entry
to the posting list. -/
theorem c9_kv_append_posting (db : List (String × String))
    (docID docJSON : String) (words : List String) (w : String)
    (hw : w ∈ words) :
    kvGet (saveDocumentWithIndexing db docID docJSON words)
        ("word:" ++ w) =
      some (appendPosting (kvGet db ("word:" ++ w)) docID
        (words.count w)) ∧
    kvGet (saveDocumentWithIndexing
        (saveDocumentWithIndexing db docID docJSON words)
        docID docJSON words) ("word:" ++ w) =
      some (appendPosting (kvGet db ("word:" ++ w)) docID
          (words.count w) ++ "," ++ postingEntry docID (words.count w)) := by
  have hmem : ∀ db' : List (String × String),
      kvGet (saveDocumentWithIndexing db' docID docJSON words)
          ("word:" ++ w) =
        some (appendPosting (kvGet db' ("word:" ++ w)) docID
          (words.count w)) := by
    intro db'
    unfold saveDocumentWithIndexing
    rw [kvGet_fold_words docID words db' w (firstOccur words)
      (kvPut db' ("doc:" ++ docID) docJSON) (nodup_firstOccurAux words []),
      if_pos (show w ∈ firstOccur words from
        (mem_firstOccurAux w words []).2 ⟨hw, by simp⟩)]
  refine ⟨hmem db, ?_⟩
  rw [hmem _, hmem db, appendPosting_some_pos _ _ _
    (appendPosting_length_pos (kvGet db ("word:" ++ w)) docID
      (words.count w))]

theorem c9_kv_append_posting_witness :
    kvGet (saveDocumentWithIndexing [] "1" "J" ["test", "doc", "test"])
        "word:test" = some "1:2" ∧
    kvGet (saveDocumentWithIndexing
        (saveDocumentWithIndexing [] "1" "J" ["test", "doc", "test"])
        "1" "J" ["test", "doc", "test"]) "word:test" = some "1:2,1:2" := by
  have h := c9_kv_append_posting [] "1" "J" ["test", "doc", "test"] "test"
    (by decide)
  exact ⟨h.1.trans (by decide), h.2.trans (by decide)⟩

theorem length_filter_mono (p q : Nat → Bool)
    (himp : ∀ j, q j = true → p j = true) :
    ∀ l : List Nat, (l.filter q).length ≤ (l.filter p).length := by
  intro l
  induction l with
  | nil => simp
  | cons a as ih =>
    by_cases hq : q a = true
    · have has : p a = true := himp a hq
      rw [List.filter_cons_of_pos hq, List.filter_cons_of_pos has]
      simpa using ih
    · rw [List.filter_cons_of_neg (by simpa using hq)]
      by_cases hp : p a = true
      · rw [List.filter_cons_of_pos hp]
        exact ih.trans (by simp)
      · rw [List.filter_cons_of_neg (by simpa using hp)]
        exact ih

theorem length_filter_strict (p q : Nat → Bool) (i : Nat)
    (himp : ∀ j, q j = true → p j = true) (hqi : q i = false)
    (hpi : p i = true) :
    ∀ l : List Nat, i ∈ l → (l.filter q).length < (l.filter p).length := by
  intro l
  induction l with
  | nil => simp
  | cons a as ih =>
    intro hmem
    rcases List.mem_cons.1 hmem with rfl | hmem'
    · rw [List.filter_cons_of_pos hpi, List.filter_cons_of_neg (by simp [hqi])]
      exact Nat.lt_succ_of_le (length_filter_mono p q himp as)
    · by_cases hq : q a = true
      · rw [List.filter_cons_of_pos hq, List.filter_cons_of_pos (himp a hq)]
        simpa using ih hmem'
      · rw [List.filter_cons_of_neg (by simpa using hq)]
        by_cases hp : p a = true
        · rw [List.filter_cons_of_pos hp]
          exact (ih hmem').trans (by simp)
        · rw [List.filter_cons_of_neg (by simpa using hp)]
          exact ih hmem'

theorem length_filter_or_eq (p : Nat → Bool) (i : Nat) :
    ∀ l : List Nat, l.Nodup → i ∈ l → p i = false →
      (l.filter (fun j => p j || decide (i = j))).length =
        (l.filter p).length + 1 := by
  intro l
  induction l with
  | nil => simp
  | cons a as ih =>
    intro hnd hmem hpi
    rcases List.mem_cons.1 hmem with rfl | hmem'
    · rw [List.filter_cons_of_pos (by simp), List.filter_cons_of_neg
        (by simp [hpi])]
      have hnotin : i ∉ as := (List.nodup_cons.1 hnd).1
      rw [show List.filter (fun j => p j || decide (i = j)) as =
          List.filter p as from
        List.filter_congr (fun j hj => by
          have hne : ¬(i = j) := fun hc => hnotin (hc ▸ hj)
          simp [hne])]
      simp
    · have hai : ¬(i = a) := by
        intro hc
        exact (List.nodup_cons.1 hnd).1 (hc ▸ hmem')
      by_cases hp : p a = true
      · rw [List.filter_cons_of_pos (by simp [hp]),
          List.filter_cons_of_pos hp]
        simpa using ih (List.nodup_cons.1 hnd).2 hmem' hpi
      · rw [List.filter_cons_of_neg (by simp [hai]; simpa using hp),
          List.filter_cons_of_neg (by simpa using hp)]
        exact ih (List.nodup_cons.1 hnd).2 hmem' hpi

theorem onesCount32_or_two_pow (x i : Nat) (hi : i < 32)
    (hx : x.testBit i = false) :
    onesCount32 (x ||| 2 ^ i) = onesCount32 x + 1 := by
  unfold onesCount32
  rw [List.filter_congr (fun j _ => by
    rw [Nat.testBit_or, Nat.testBit_two_pow] :
    ∀ j ∈ List.range 32, ((x ||| 2 ^ i).testBit j) =
      (x.testBit j || decide (i = j)))]
  exact length_filter_or_eq (fun j => x.testBit j) i (List.range 32)
    (List.nodup_range 32) (List.mem_range.2 hi) hx

theorem onesCount32_or_and_le (x i : Nat) :
    onesCount32 ((x ||| 2 ^ i) &&& (2 ^ i - 1)) ≤ onesCount32 x := by
  unfold onesCount32
  rw [List.filter_congr (fun j _ => by
    rw [Nat.testBit_and, Nat.testBit_or, Nat.testBit_two_pow,
      Nat.testBit_two_pow_sub_one] :
    ∀ j ∈ List.range 32, (((x ||| 2 ^ i) &&& (2 ^ i - 1)).testBit j) =
      ((x.testBit j || decide (i = j)) && decide (j < i)))]
  refine length_filter_mono _ _ (fun j hj => ?_) (List.range 32)
  simp only [Bool.and_eq_true, Bool.or_eq_true] at hj
  rcases hj with ⟨h | h, hlt⟩
  · exact h
  · exact absurd (of_decide_eq_true hlt)
      (by simp [of_decide_eq_true h])

theorem onesCount32_and_lt (x i : Nat) (hi : i < 32)
    (hx : x.testBit i = true) :
    onesCount32 (x &&& (2 ^ i - 1)) < onesCount32 x := by
  unfold onesCount32
  rw [List.filter_congr (fun j _ => by
    rw [Nat.testBit_and, Nat.testBit_two_pow_sub_one] :
    ∀ j ∈ List.range 32, ((x &&& (2 ^ i - 1)).testBit j) =
      (x.testBit j && decide (j < i)))]
  refine length_filter_strict _ _ i (fun j hj => ?_)
    (by simp [hx]) hx (List.range 32) (List.mem_range.2 hi)
  simp only [Bool.and_eq_true] at hj
  exact hj.1

theorem testBit_false_of_and_two_pow_eq_zero {x i : Nat}
    (h : x &&& 2 ^ i = 0) : x.testBit i = false := by
  rw [Nat.and_two_pow] at h
  rcases hb : x.testBit i
  · rfl
  · rw [hb] at h
    simp at h

/-- A freshly appended node slot satisfies the density invariant. -/
theorem density_nodeAppend (n : HamtNode) (idx br : Nat) (hidx : idx < 32)
    (hbit : n.bitmap.testBit idx = false)
    (hd : onesCount32 n.bitmap = n.children.length) :
    onesCount32 (hamtNodeAppend n idx br).bitmap =
      (hamtNodeAppend n idx br).children.length := by
  unfold hamtNodeAppend
  simp only
  rw [onesCount32_or_two_pow _ _ hidx hbit,
    List.length_insertIdx _ _ ((onesCount32_or_and_le n.bitmap idx).trans
      (le_of_eq hd)), hd]

theorem nextNode_false_and (t : HamtTrie) (n hash : Nat)
    (h : (hamtNextNode t n hash).2 = false) :
    (t.nodes.getD n ⟨0, []⟩).bitmap &&& 2 ^ (hash % 32) = 0 := by
  unfold hamtNextNode at h
  split at h
  · assumption
  · simp at h

theorem density_getD (t : HamtTrie)
    (hinv : ∀ n ∈ t.nodes, onesCount32 n.bitmap = n.children.length)
    (i : Nat) :
    onesCount32 ((t.nodes.getD i ⟨0, []⟩).bitmap) =
      (t.nodes.getD i ⟨0, []⟩).children.length := by
  rw [List.getD_eq_getD_get?]
  rcases hg : t.nodes.get? i with _ | x
  · decide
  · exact hinv x (List.get?_mem hg)

/-- Appending a fresh arena node and splicing its index into a parent
whose slot bit was clear preserves density at every node. -/
theorem inv_hamtInsertLoop :
    ∀ (k : Nat) (t : HamtTrie) (node hash : Nat),
      (∀ n ∈ t.nodes, onesCount32 n.bitmap = n.children.length) →
      ∀ n ∈ (hamtInsertLoop k t node hash).1.nodes,
        onesCount32 n.bitmap = n.children.length := by
  intro k
  induction k with
  | zero =>
    intro t node hash hinv
    simpa [hamtInsertLoop] using hinv
  | succ k ih =>
    intro t node hash hinv
    rw [hamtInsertLoop]
    by_cases hr : (hamtNextNode t node hash).2
    · simpa [hr] using ih t _ _ hinv
    · rw [Bool.not_eq_true] at hr
      simp only [hr, Bool.false_eq_true, if_false]
      set t1 : HamtTrie := ⟨t.nodes ++ [⟨0, []⟩], t.terms⟩ with ht1
      have hinv1 : ∀ n ∈ t1.nodes,
          onesCount32 n.bitmap = n.children.length := by
        intro n hn
        rcases List.mem_append.1 hn with hn | hn
        · exact hinv n hn
        · rcases List.mem_singleton.1 hn with rfl
          decide
      have hsame : (t1.nodes.getD node ⟨0, []⟩).bitmap.testBit (hash % 32) =
          false := by
        have hand := nextNode_false_and t node hash hr
        have hbit0 := testBit_false_of_and_two_pow_eq_zero hand
        rw [ht1]
        show ((t.nodes ++ [(⟨0, []⟩ : HamtNode)]).getD node
          ⟨0, []⟩).bitmap.testBit (hash % 32) = false
        by_cases hlt : node < t.nodes.length
        · rw [List.getD_append _ _ _ _ hlt]
          exact hbit0
        · push_neg at hlt
          rw [List.getD_append_right _ _ _ _ hlt]
          have hone : ([(⟨0, []⟩ : HamtNode)].getD (node - t.nodes.length)
              ⟨0, []⟩) = ⟨0, []⟩ := by
            rcases node - t.nodes.length with _ | k
            · rfl
            · rfl
          rw [hone]
          exact Nat.zero_testBit _
      refine ih _ _ _ ?_
      intro n hn
      rcases List.mem_or_eq_of_mem_set hn with hn | rfl
      · exact hinv1 n hn
      · exact density_nodeAppend _ _ _ (Nat.mod_lt _ (by omega)) hsame
          (density_getD t1 hinv1 node)

/-- One arena-HAMT insert preserves density at every node. -/
theorem inv_hamtInsert (t : HamtTrie) (word : List Nat) (d : String)
    (hinv : ∀ n ∈ t.nodes, onesCount32 n.bitmap = n.children.length) :
    ∀ n ∈ (hamtInsert t word d).nodes,
      onesCount32 n.bitmap = n.children.length := by
  unfold hamtInsert
  have hinv1 := inv_hamtInsertLoop 5 t 0 (fnv32a word) hinv
  set r := hamtInsertLoop 5 t 0 (fnv32a word) with hrdef
  by_cases hs : (hamtNextNode r.1 r.2.1 r.2.2).2
  · simpa [hs] using hinv1
  · rw [Bool.not_eq_true] at hs
    simp only [hs, Bool.false_eq_true, if_false]
    intro n hn
    rcases List.mem_or_eq_of_mem_set hn with hn | rfl
    · exact hinv1 n hn
    · have hbit :=
        testBit_false_of_and_two_pow_eq_zero (nextNode_false_and _ _ _ hs)
      exact density_nodeAppend _ _ _ (Nat.mod_lt _ (by omega)) hbit
        (density_getD r.1 hinv1 r.2.1)

theorem inv_hamtRun (ops : List (List Nat × String)) :
    ∀ n ∈ (hamtRun ops).nodes,
      onesCount32 n.bitmap = n.children.length := by
  suffices h : ∀ (l : List (List Nat × String)) (t : HamtTrie),
      (∀ n ∈ t.nodes, onesCount32 n.bitmap = n.children.length) →
      ∀ n ∈ (l.foldl (fun t op => hamtInsert t op.1 op.2) t).nodes,
        onesCount32 n.bitmap = n.children.length by
    exact h ops hamtNew (by intro n hn; rcases List.mem_singleton.1 hn with rfl; decide)
  intro l
  induction l with
  | nil => intro t hinv; simpa using hinv
  | cons op rest ih =>
    intro t hinv
    exact ih _ (inv_hamtInsert t op.1 op.2 hinv)

/-- C7: after any sequence of inserts into the arena HAMT, every
internal node satisfies `popcount(bitmap) == len(children)`, and for
every set bit `i` of the bitmap the dense-array position
`popcount(bitmap & ((1<<i)-1))` of its child is within the children
array. -/
theorem c7_hamt_density_invariant (ops : List (List Nat × String)) :
    ∀ n ∈ (hamtRun ops).nodes,
      onesCount32 n.bitmap = n.children.length ∧
      ∀ i, i < 32 → n.bitmap.testBit i = true →
        onesCount32 (n.bitmap &&& (2 ^ i - 1)) < n.children.length := by
  intro n hn
  have hd := inv_hamtRun ops n hn
  exact ⟨hd, fun i hi hbit => hd ▸ onesCount32_and_lt n.bitmap i hi hbit⟩

theorem c7_hamt_density_invariant_witness :
    onesCount32
        ((hamtRun [(utf8Bytes "a", "d")]).nodes.getD 0 ⟨0, []⟩).bitmap =
      ((hamtRun [(utf8Bytes "a", "d")]).nodes.getD 0 ⟨0, []⟩).children.length ∧
    onesCount32
        (((hamtRun [(utf8Bytes "a", "d")]).nodes.getD 0 ⟨0, []⟩).bitmap &&&
          (2 ^ 12 - 1)) <
      ((hamtRun [(utf8Bytes "a", "d")]).nodes.getD 0
        ⟨0, []⟩).children.length := by
  have h := c7_hamt_density_invariant [(utf8Bytes "a", "d")]
    ((hamtRun [(utf8Bytes "a", "d")]).nodes.getD 0 ⟨0, []⟩) (by decide)
  exact ⟨h.1, h.2 12 (by omega) (by decide)⟩

/-- C2: after inserting only the key "abc", searching the proper
prefix "ab" returns the postings of "abc" instead of empty: case 1 of
`Trie.next` (`p == len(rest)`) reports an exact match whenever the
child is terminal, without requiring the child's edge label to be
fully consumed, although its own comment says a query word that
matched only a prefix of a longer word is not found.  The sliced
variant `radix_hash_trie.go` has the identical `next`. -/
theorem c2_radix_prefix_query_not_empty :
    radixSearch (radixInsert emptyRadix (utf8Bytes "abc") "d1")
      (utf8Bytes "ab") = some [("d1", 1)] := by decide

/-- C3: inserting the same `(key, docID)` pair twice into the
ham_trie yields count 3, not 2: when the slotted bucket entry's key
matches, `insertIntoTerminal` calls `addDoc` and then — missing a
`return` — falls into the fallback loop (commented "keys differ"),
which finds the same entry and increments it again, so n inserts store
count 2n−1. -/
theorem c3_ham_trie_double_count :
    hamSearch (hamInsert (hamInsert hamNew (utf8Bytes "a") "d")
      (utf8Bytes "a") "d") (utf8Bytes "a") = some [("d", 3)] := by decide

end FtsEngine
